import Mathlib

/-!
# Inventory session (`solution.c`)

A shallow embedding of the console inventory tracker of `src/solution.c`.

* Standard input is a list of characters that the reading functions consume
  from the front; the text written by `printf` is collected as a list of
  characters.
* `int` values are integers; `scanf("%d")` stores the two's complement 32-bit
  value of the numeral it read.
* The `float` type is a parameter (`FloatModel`): the operations the program
  applies to prices are fields of it.  `binary32` is the IEEE 754 single
  precision instance used to evaluate the program on concrete inputs.
* The array `inventory` is a function from indices to records, so that a write
  outside `0 .. MAX_ITEMS - 1` is expressible; `count` is an integer as in the
  source.
-/

namespace Inventory

/-! ## Standard input -/

/-- The whitespace characters of `isspace` in the C locale. -/
def isspace (c : Char) : Bool :=
  c = ' ' || c = '\t' || c = '\n' || c = '\x0b' || c = '\x0c' || c = '\r'

/-- The decimal digits of `isdigit`. -/
def isdigit (c : Char) : Bool :=
  decide (48 ≤ c.toNat) && decide (c.toNat ≤ 57)

/-- Leading whitespace skipped by a `scanf` conversion (newlines included). -/
def skipSpace : List Char → List Char
  | [] => []
  | c :: cs => if isspace c then skipSpace cs else c :: cs

/-- The longest run of digits at the front of the input, read as a decimal
numeral on top of the value `acc` read so far. -/
def readDigits : Nat → List Char → Nat × List Char
  | acc, [] => (acc, [])
  | acc, c :: cs =>
    if isdigit c then readDigits (10 * acc + (c.toNat - 48)) cs else (acc, c :: cs)

/-- The `int` that holds the low 32 bits of `v` (two's complement). -/
def wrap32 (v : Int) : Int :=
  (v + 2147483648) % 4294967296 - 2147483648

/-- The call `scanf("%d", &x)`: `some v` when the call returns 1 and stores
`v`, `none` when it returns 0 or `EOF` and stores nothing; the second component
is the input left unread.  Whitespace is skipped, an optional sign is consumed,
then the digits; the first character that cannot continue the numeral is left
in the input. -/
def scanf_d (inp : List Char) : Option Int × List Char :=
  match skipSpace inp with
  | [] => (none, [])
  | c :: cs =>
    match (if c = '-' ∨ c = '+' then cs else c :: cs) with
    | [] => (none, [])
    | d :: ds =>
      if isdigit d then
        (some (wrap32 (if c = '-' then -((readDigits 0 (d :: ds)).1 : Int)
                        else ((readDigits 0 (d :: ds)).1 : Int))),
         (readDigits 0 (d :: ds)).2)
      else (none, d :: ds)

/-- The function `clear_buffer` (solution.c lines 14-19): `getchar` until a
newline has been consumed or the input has ended. -/
def clear_buffer : List Char → List Char
  | [] => []
  | c :: cs => if c = '\n' then cs else clear_buffer cs

/-- The call `fgets(buf, k + 1, stdin)`: at most `k` characters are read,
stopping after a newline, which is kept.  The result is the characters stored
and the input left unread. -/
def fgets : Nat → List Char → List Char × List Char
  | 0, inp => ([], inp)
  | _ + 1, [] => ([], [])
  | k + 1, c :: cs =>
    if c = '\n' then ([c], cs) else (c :: (fgets k cs).1, (fgets k cs).2)

/-- The C string held by a buffer whose bytes are `bytes` followed by the
terminating NUL: it ends at the first NUL byte. -/
def cString (bytes : List Char) : List Char :=
  bytes.takeWhile (fun c => c != '\x00')

/-- The statement `name[strcspn(name, "\n")] = 0`: the string is cut at its
first newline. -/
def stripNewline (str : List Char) : List Char :=
  str.takeWhile (fun c => c != '\n')

/-! ## Standard output -/

/-- Decimal digits of a natural number, most significant first; `fuel` bounds
the number of digits. -/
def natDigits : Nat → Nat → List Char → List Char
  | 0, _, acc => acc
  | fuel + 1, n, acc =>
    if n < 10 then Char.ofNat (48 + n) :: acc
    else natDigits fuel (n / 10) (Char.ofNat (48 + n % 10) :: acc)

/-- The conversion `%d` of `printf`. -/
def fmt_d (v : Int) : List Char :=
  if v < 0 then '-' :: natDigits (v.natAbs + 1) v.natAbs []
  else natDigits (v.natAbs + 1) v.natAbs []

/-! ## The `float` type -/

/-- The operations on `float` that the program uses. -/
structure FloatModel where
  /-- The values of type `float`. -/
  F : Type
  /-- The constant `0` converted to `float`. -/
  zero : F
  /-- The conversion of an `int` to `float`. -/
  ofInt : Int → F
  /-- The product of two `float`s. -/
  mul : F → F → F
  /-- The sum of two `float`s. -/
  add : F → F → F
  /-- The test `x < 0`. -/
  ltZero : F → Bool
  /-- The call `scanf("%f", &x)`, with the conventions of `scanf_d`. -/
  scanf_f : List Char → Option F × List Char
  /-- The conversion `%.2f` of `printf`. -/
  fmt2 : F → List Char

/-! ## Data model -/

/-- The record `struct Item` (solution.c lines 6-12); `name` is the C string
held by the 50-byte buffer. -/
structure Item (F : Type) where
  id : Int
  name : List Char
  quantity : Int
  price : F

/-- The constant `MAX_ITEMS` (solution.c line 4). -/
def MAX_ITEMS : Int := 100

/-- The variables of `main` that live across loop iterations, and the unread
standard input. -/
structure State (F : Type) where
  inventory : Int → Item F
  count : Int
  stdin : List Char

/-- What one pass through the body of `while (1)` does: the state after it,
the text printed, and whether the pass left the loop through `break`. -/
structure Step (F : Type) where
  state : State F
  stdout : List Char
  exited : Bool

/-- The assignment to one field of `inventory[i]`. -/
def store {F : Type} (inv : Int → Item F) (i : Int) (f : Item F → Item F) :
    Int → Item F :=
  fun j => if j = i then f (inv i) else inv j

/-- The two `printf` calls at the head of the loop (solution.c lines 29-30). -/
def menu : List Char :=
  "\n=== Inventory System ===\n".toList ++
  "1. Add Item\n2. View Inventory\n3. Search Item\n4. Calculate Total Value\n5. Exit\nSelect option: ".toList

/-- The two statements `fgets(inventory[count].name, 50, stdin)` and
`name[strcspn(name, "\n")] = 0` (solution.c lines 58-59) on a buffer that holds
the string `old`: the string it holds afterwards.  At the end of the input
`fgets` stores nothing and the old content is cut. -/
def readName (old : List Char) (inp : List Char) : List Char :=
  stripNewline (if inp = [] then old else cString (fgets 49 inp).1)

/-! ## The five menu branches -/

/-- The branch `choice == 1` (solution.c lines 40-81), entered with the
unread input `inp`; `out` is the text printed so far in this pass. -/
def addItem (M : FloatModel) (inv : Int → Item M.F) (count : Int) (inp : List Char)
    (out : List Char) : Step M.F :=
  if count ≥ MAX_ITEMS then
    ⟨⟨inv, count, inp⟩, out ++ "Inventory full.\n".toList, false⟩
  else
    let out1 := out ++ "Enter Item ID (number): ".toList
    match scanf_d inp with
    | (none, r1) => ⟨⟨inv, count, clear_buffer r1⟩, out1 ++ "Invalid ID.\n".toList, false⟩
    | (some v, r1) =>
      let inv1 := store inv count (fun it => { it with id := v })
      let in2 := clear_buffer r1
      let out2 := out1 ++ "Enter Item Name: ".toList
      let inv2 := store inv1 count (fun it => { it with name := readName it.name in2 })
      let in3 := (fgets 49 in2).2
      let out3 := out2 ++ "Enter Quantity: ".toList
      match scanf_d in3 with
      | (none, r3) =>
        ⟨⟨inv2, count, clear_buffer r3⟩, out3 ++ "Invalid quantity.\n".toList, false⟩
      | (some q, r3) =>
        let inv3 := store inv2 count (fun it => { it with quantity := q })
        if q < 0 then
          ⟨⟨inv3, count, clear_buffer r3⟩, out3 ++ "Invalid quantity.\n".toList, false⟩
        else
          let in4 := clear_buffer r3
          let out4 := out3 ++ "Enter Price per unit: ".toList
          match M.scanf_f in4 with
          | (none, r4) =>
            ⟨⟨inv3, count, clear_buffer r4⟩, out4 ++ "Invalid price.\n".toList, false⟩
          | (some p, r4) =>
            let inv4 := store inv3 count (fun it => { it with price := p })
            if M.ltZero p then
              ⟨⟨inv4, count, clear_buffer r4⟩, out4 ++ "Invalid price.\n".toList, false⟩
            else
              ⟨⟨inv4, count + 1, clear_buffer r4⟩, out4 ++ "Item added.\n".toList, false⟩

/-- One line of the listing: `printf("%d\t%d\t%.2f\t%s\n", ...)`
(solution.c line 92). -/
def viewRow (M : FloatModel) (it : Item M.F) : List Char :=
  fmt_d it.id ++ '\t' :: (fmt_d it.quantity ++ '\t' :: (M.fmt2 it.price ++ '\t' ::
    (it.name ++ ['\n'])))

/-- The loop `for (int i = 0; i < count; i++)` of the listing, with `n` passes
left to run from index `i`. -/
def viewLoop (M : FloatModel) (inv : Int → Item M.F) : Nat → Int → List Char
  | 0, _ => []
  | n + 1, i => viewRow M (inv i) ++ viewLoop M inv n (i + 1)

/-- The branch `choice == 2` (solution.c lines 82-94).  The loop
`for (int i = 0; i < count; i++)` makes `(count - 0).toNat` passes: none when
`count ≤ 0`. -/
def viewInventory (M : FloatModel) (inv : Int → Item M.F) (count : Int)
    (inp : List Char) (out : List Char) : Step M.F :=
  if count = 0 then
    ⟨⟨inv, count, inp⟩, out ++ "Inventory is empty.\n".toList, false⟩
  else
    ⟨⟨inv, count, inp⟩,
      out ++ "\nID\tQty\tPrice\tName\n".toList ++ viewLoop M inv (count - 0).toNat 0, false⟩

/-- The search loop (solution.c lines 107-115), with `n` passes left to run
from index `i`: the index at which the loop breaks, if it does. -/
def searchLoop {F : Type} (inv : Int → Item F) (search_id : Int) : Nat → Int → Option Int
  | 0, _ => none
  | n + 1, i => if (inv i).id = search_id then some i else searchLoop inv search_id n (i + 1)

/-- The text `printf("\nFound: %s (Qty: %d, Price: $%.2f)\n", ...)`
(solution.c line 111). -/
def foundText (M : FloatModel) (it : Item M.F) : List Char :=
  "\nFound: ".toList ++ it.name ++ " (Qty: ".toList ++ fmt_d it.quantity ++
    ", Price: $".toList ++ M.fmt2 it.price ++ ")\n".toList

/-- The branch `choice == 3` (solution.c lines 95-118); the loop makes at most
`(count - 0).toNat` passes. -/
def searchItem (M : FloatModel) (inv : Int → Item M.F) (count : Int)
    (inp : List Char) (out : List Char) : Step M.F :=
  let out1 := out ++ "Enter Item ID to search: ".toList
  match scanf_d inp with
  | (none, r1) => ⟨⟨inv, count, clear_buffer r1⟩, out1 ++ "Invalid input.\n".toList, false⟩
  | (some search_id, r1) =>
    match searchLoop inv search_id (count - 0).toNat 0 with
    | some i => ⟨⟨inv, count, clear_buffer r1⟩, out1 ++ foundText M (inv i), false⟩
    | none => ⟨⟨inv, count, clear_buffer r1⟩, out1 ++ "Item not found.\n".toList, false⟩

/-- The summation loop (solution.c lines 122-125), with `n` passes left to run
from index `i` and `total_value` accumulated so far. -/
def totalLoop (M : FloatModel) (inv : Int → Item M.F) : Nat → Int → M.F → M.F
  | 0, _, total_value => total_value
  | n + 1, i, total_value =>
    totalLoop M inv n (i + 1)
      (M.add total_value (M.mul (M.ofInt (inv i).quantity) (inv i).price))

/-- The value of `total_value` after the loop of the branch `choice == 4`. -/
def total_value (M : FloatModel) (inv : Int → Item M.F) (count : Int) : M.F :=
  totalLoop M inv (count - 0).toNat 0 M.zero

/-- The branch `choice == 4` (solution.c lines 119-127). -/
def totalValue (M : FloatModel) (inv : Int → Item M.F) (count : Int)
    (inp : List Char) (out : List Char) : Step M.F :=
  ⟨⟨inv, count, inp⟩,
    out ++ "\nTotal Inventory Value: $".toList ++ M.fmt2 (total_value M inv count) ++ ['\n'],
    false⟩

/-! ## The loop -/

/-- One pass through the body of `while (1)` (solution.c lines 28-137). -/
def iteration (M : FloatModel) (s : State M.F) : Step M.F :=
  match scanf_d s.stdin with
  | (none, r) =>
    ⟨⟨s.inventory, s.count, clear_buffer r⟩,
      menu ++ "Invalid input. Enter a number.\n".toList, false⟩
  | (some choice, r) =>
    let inp := clear_buffer r
    if choice = 1 then addItem M s.inventory s.count inp menu
    else if choice = 2 then viewInventory M s.inventory s.count inp menu
    else if choice = 3 then searchItem M s.inventory s.count inp menu
    else if choice = 4 then totalValue M s.inventory s.count inp menu
    else if choice = 5 then ⟨⟨s.inventory, s.count, inp⟩, menu ++ "Exiting...\n".toList, true⟩
    else ⟨⟨s.inventory, s.count, inp⟩,
      menu ++ "Choose an option between 1 and 5.\n".toList, false⟩

/-- The state after `n` passes of the loop, or at the `break` if one of them
takes it. -/
def run (M : FloatModel) : Nat → State M.F → State M.F
  | 0, s => s
  | n + 1, s => if (iteration M s).exited then (iteration M s).state
                else run M n (iteration M s).state

/-- The function `main` (solution.c lines 21-139) run for at most `fuel` passes
of the loop from the state `s`: the exit status and the text printed, or `none`
if the loop is still running after `fuel` passes. -/
def mainFrom (M : FloatModel) : Nat → State M.F → Option (Int × List Char)
  | 0, _ => none
  | fuel + 1, s =>
    if (iteration M s).exited then some (0, (iteration M s).stdout)
    else (mainFrom M fuel (iteration M s).state).map
      (fun r => (r.1, (iteration M s).stdout ++ r.2))

/-- The state in which `main` enters the loop: `count = 0`, and the array
holds whatever `mem` the stack held. -/
def initial {F : Type} (mem : Int → Item F) (input : List Char) : State F :=
  ⟨mem, 0, input⟩

/-- The function `main` on the standard input `input`. -/
def main (M : FloatModel) (mem : Int → Item M.F) (fuel : Nat) (input : List Char) :
    Option (Int × List Char) :=
  mainFrom M fuel (initial mem input)

/-! ## IEEE 754 single precision -/

/-- The values of the binary32 format: `fin neg m e` is `± m * 2 ^ e` with
`m < 2 ^ 24` and `-149 ≤ e ≤ 104`, and `m ≥ 2 ^ 23` unless `e = -149`
(zero and the subnormal numbers); the sign of a NaN is not recorded. -/
inductive F32 where
  | nan : F32
  | inf (neg : Bool) : F32
  | fin (neg : Bool) (m : Nat) (e : Int) : F32
  deriving DecidableEq

namespace F32

/-- Number of binary digits of `n`; `fuel` bounds it. -/
def bitLength : Nat → Nat → Nat
  | 0, _ => 0
  | fuel + 1, n => if n = 0 then 0 else bitLength fuel (n / 2) + 1

/-- The power `2 ^ k` for `k ≥ 0`, and `1` for negative `k`. -/
def pow2 (k : Int) : Nat := 2 ^ k.toNat

/-- The integer nearest to `num / den`, ties going to the even one. -/
def roundNat (num den : Nat) : Nat :=
  if 2 * (num % den) > den ∨ (2 * (num % den) = den ∧ (num / den) % 2 = 1)
  then num / den + 1 else num / den

/-- The binary32 value nearest to `± num / den` (ties to even), for
`den > 0`. -/
def round (neg : Bool) (num den : Nat) : F32 :=
  if num = 0 then fin neg 0 (-149)
  else
    let l : Int := (bitLength num num : Int) - (bitLength den den : Int)
    let k : Int := if den * pow2 l ≤ num * pow2 (-l) then l else l - 1
    let e : Int := max (k - 23) (-149)
    let q := roundNat (num * pow2 (-e)) (den * pow2 e)
    if q = 16777216 then (if e + 1 > 104 then inf neg else fin neg 8388608 (e + 1))
    else if e > 104 then inf neg
    else fin neg q e

/-- The value `+0`. -/
def zero : F32 := fin false 0 (-149)

/-- Conversion of an `int`. -/
def ofInt (i : Int) : F32 := round (decide (i < 0)) i.natAbs 1

/-- The product, rounded. -/
def mul : F32 → F32 → F32
  | nan, _ => nan
  | _, nan => nan
  | inf s, inf t => inf (xor s t)
  | inf s, fin t n _ => if n = 0 then nan else inf (xor s t)
  | fin s m _, inf t => if m = 0 then nan else inf (xor s t)
  | fin s m e, fin t n f => round (xor s t) (m * n * pow2 (e + f)) (pow2 (-(e + f)))

/-- The sum, rounded; an exact zero sum is `+0` unless both terms are `-0`. -/
def add : F32 → F32 → F32
  | nan, _ => nan
  | _, nan => nan
  | inf s, inf t => if s = t then inf s else nan
  | inf s, fin _ _ _ => inf s
  | fin _ _ _, inf t => inf t
  | fin s m e, fin t n f =>
    let g : Int := min e f
    let c : Int := (if s then -((m * pow2 (e - g) : Nat) : Int) else ((m * pow2 (e - g) : Nat) : Int))
      + (if t then -((n * pow2 (f - g) : Nat) : Int) else ((n * pow2 (f - g) : Nat) : Int))
    if c = 0 then fin (s && t) 0 (-149)
    else round (decide (c < 0)) (c.natAbs * pow2 g) (pow2 (-g))

/-- The test `x < 0`. -/
def ltZero : F32 → Bool
  | fin true m _ => decide (m ≠ 0)
  | inf true => true
  | _ => false

/-- The conversion `%.2f`: the exact value rounded to hundredths, ties to
even. -/
def fmt2 : F32 → List Char
  | nan => "nan".toList
  | inf s => (if s then ['-'] else []) ++ "inf".toList
  | fin s m e =>
    let c := roundNat (m * 100 * pow2 e) (pow2 (-e))
    (if s then ['-'] else []) ++ natDigits (c / 100 + 1) (c / 100) [] ++
      ['.', Char.ofNat (48 + c / 10 % 10), Char.ofNat (48 + c % 10)]

/-- Lower case of an ASCII letter. -/
def toLower (c : Char) : Char :=
  if 65 ≤ c.toNat ∧ c.toNat ≤ 90 then Char.ofNat (c.toNat + 32) else c

/-- Reads the lower-case word `w` from the input without regard to case:
whether all of it was there, and the input after the part that matched. -/
def matchWord : List Char → List Char → Bool × List Char
  | [], inp => (true, inp)
  | _ :: _, [] => (false, [])
  | w :: ws, c :: cs => if toLower c = w then matchWord ws cs else (false, c :: cs)

/-- The value of `c` as a digit in base 10 or 16. -/
def digitValue (base : Nat) (c : Char) : Option Nat :=
  if isdigit c then some (c.toNat - 48)
  else if base = 16 ∧ 97 ≤ (toLower c).toNat ∧ (toLower c).toNat ≤ 102 then
    some ((toLower c).toNat - 87)
  else none

/-- The longest run of digits in `base`: its value on top of `acc`, the
number of digits on top of `n`, and the input left. -/
def readBase (base : Nat) : Nat → Nat → List Char → Nat × Nat × List Char
  | acc, n, [] => (acc, n, [])
  | acc, n, c :: cs =>
    match digitValue base c with
    | some d => readBase base (base * acc + d) (n + 1) cs
    | none => (acc, n, c :: cs)

/-- Digits with an optional point: the value of the digits taken together,
how many digits there are, how many of them follow the point, and the input
left. -/
def readMantissa (base : Nat) (inp : List Char) : Nat × Nat × Nat × List Char :=
  match (readBase base 0 0 inp).2.2 with
  | '.' :: r =>
    ((readBase base (readBase base 0 0 inp).1 0 r).1,
     (readBase base 0 0 inp).2.1 + (readBase base (readBase base 0 0 inp).1 0 r).2.1,
     (readBase base (readBase base 0 0 inp).1 0 r).2.1,
     (readBase base (readBase base 0 0 inp).1 0 r).2.2)
  | _ => ((readBase base 0 0 inp).1, (readBase base 0 0 inp).2.1, 0, (readBase base 0 0 inp).2.2)

/-- An optional exponent part introduced by the lower-case letter `mark`:
`some 0` when there is none, `none` when the letter is not followed by a
numeral. -/
def readExponent (mark : Char) : List Char → Option Int × List Char
  | [] => (some 0, [])
  | c :: cs =>
    if toLower c = mark then
      match (match cs with
             | s :: r => if s = '-' ∨ s = '+' then r else cs
             | [] => cs) with
      | [] => (none, [])
      | d :: ds =>
        if isdigit d then
          (some (if cs.head? = some '-' then -((readDigits 0 (d :: ds)).1 : Int)
                 else ((readDigits 0 (d :: ds)).1 : Int)),
           (readDigits 0 (d :: ds)).2)
        else (none, d :: ds)
    else (some 0, c :: cs)

/-- A numeral in base 10 (exponent letter `e`, scaling by powers of 10) or
16 (after `0x`; exponent letter `p`, scaling by powers of 2). -/
def readNumber (neg : Bool) (base : Nat) (inp : List Char) : Option F32 × List Char :=
  match readMantissa base inp with
  | (v, digits, after, r) =>
    if digits = 0 then (none, r)
    else
      match readExponent (if base = 16 then 'p' else 'e') r with
      | (none, r2) => (none, r2)
      | (some x, r2) =>
        if base = 16 then
          (some (round neg (v * pow2 (x - 4 * after)) (pow2 (-(x - 4 * after)))), r2)
        else
          (some (round neg (v * 10 ^ (x - after).toNat) (10 ^ (-(x - after)).toNat)), r2)

/-- The characters allowed between the brackets of `nan(...)`. -/
def isNanChar (c : Char) : Bool :=
  isdigit c || decide (97 ≤ (toLower c).toNat ∧ (toLower c).toNat ≤ 122) || decide (c = '_')

/-- The call `scanf("%f", &x)`: whitespace, an optional sign, then a decimal
or hexadecimal numeral, `inf`, `infinity` or `nan`. -/
def scanf_f (inp : List Char) : Option F32 × List Char :=
  match skipSpace inp with
  | [] => (none, [])
  | c :: cs =>
    let neg : Bool := decide (c = '-')
    match (if c = '-' ∨ c = '+' then cs else c :: cs) with
    | [] => (none, [])
    | b :: bs =>
      if toLower b = 'i' then
        match matchWord "inf".toList (b :: bs) with
        | (false, r) => (none, r)
        | (true, r) =>
          if (r.head?.map toLower) = some 'i' then
            match matchWord "inity".toList r with
            | (false, r2) => (none, r2)
            | (true, r2) => (some (inf neg), r2)
          else (some (inf neg), r)
      else if toLower b = 'n' then
        match matchWord "nan".toList (b :: bs) with
        | (false, r) => (none, r)
        | (true, r) =>
          match r with
          | '(' :: r2 =>
            match r2.dropWhile isNanChar with
            | ')' :: r3 => (some nan, r3)
            | r3 => (none, r3)
          | _ => (some nan, r)
      else if b = '0' ∧ (bs.head?.map toLower) = some 'x' then
        readNumber neg 16 bs.tail
      else readNumber neg 10 (b :: bs)

end F32

/-- The `float` type as IEEE 754 binary32 with rounding to nearest, ties to
even. -/
def binary32 : FloatModel where
  F := F32
  zero := F32.zero
  ofInt := F32.ofInt
  mul := F32.mul
  add := F32.add
  ltZero := F32.ltZero
  scanf_f := F32.scanf_f
  fmt2 := F32.fmt2


/-! ## Concrete inputs -/

/-- Memory whose records are all zero, used for concrete runs. -/
def mem0 : Int → Item F32 := fun _ => ⟨0, [], 0, F32.zero⟩

/-- The state after any number of passes of the loop, the `break` apart. -/
def after (M : FloatModel) (n : Nat) (s : State M.F) : State M.F :=
  (fun t => (iteration M t).state)^[n] s

/-- The first line of the input, without its newline. -/
def firstLine (inp : List Char) : List Char :=
  inp.takeWhile (fun c => c != '\n')

instance : DecidableEq binary32.F := inferInstanceAs (DecidableEq F32)

/-- The inventory that holds the one record of the scenario of the
specification: id 1, name Widget, quantity 10, price 2.50. -/
def widgetInventory : Int → Item F32 :=
  fun _ => ⟨1, "Widget".toList, 10, F32.fin false 10485760 (-22)⟩

/-- The real number a finite binary32 value stands for (0 for the others). -/
def F32.toRat : F32 → ℚ
  | F32.fin neg m e => (if neg then -1 else 1) * (m : ℚ) * (2 : ℚ) ^ e
  | _ => 0

/-- The sum of quantity times price over the first `n` records, in exact
arithmetic. -/
def exactTotal (inv : Int → Item F32) (n : Nat) : ℚ :=
  ((List.range n).map (fun i : Nat => ((inv i).quantity : ℚ) * (inv i).price.toRat)).sum

/-- Two records of quantity 1, priced 16777216 and 1. -/
def largeInventory : Int → Item F32 :=
  fun i => if i = 0 then ⟨1, "a".toList, 1, F32.fin false 8388608 1⟩
           else ⟨2, "b".toList, 1, F32.fin false 8388608 (-23)⟩

/-- The pass from the state `s` prints the menu and `text`, keeps `count` and
every record of index other than `count`, prints to a later listing, search or
total what the inventory before the pass would, and does not leave the loop. -/
def abortedWith (M : FloatModel) (s : State M.F) (text : String) : Prop :=
  (iteration M s).stdout = menu ++ text.toList ∧
  (iteration M s).state.count = s.count ∧
  (∀ i, i ≠ s.count → (iteration M s).state.inventory i = s.inventory i) ∧
  (∀ inp, (iteration M ⟨(iteration M s).state.inventory, s.count, inp⟩).stdout
    = (iteration M ⟨s.inventory, s.count, inp⟩).stdout) ∧
  (iteration M s).exited = false

/-- A name line of 50 characters, 49 letters and the digit 5, after the
selection 1 and the id 7, followed by the lines 3 and 2.5 meant as quantity
and price. -/
def longNameInput : List Char :=
  "1\n7\n".toList ++ (List.replicate 49 'a' ++ "5\n3\n2.5\n".toList)

/-! ## Lemmas on the loop body -/

/-- The add branch writes no record but the one of index `count`, and none at
all when the array is full; `count` stays or grows by one below the capacity;
the branch never breaks, and it only adds to the text printed. -/
theorem addItem_frame (M : FloatModel) (inv : Int → Item M.F) (count : Int)
    (inp out : List Char) :
    (∀ i, i ≠ count → (addItem M inv count inp out).state.inventory i = inv i) ∧
    (MAX_ITEMS ≤ count → (addItem M inv count inp out).state.inventory = inv) ∧
    ((addItem M inv count inp out).state.count = count ∨
      ((addItem M inv count inp out).state.count = count + 1 ∧ count < MAX_ITEMS)) ∧
    (addItem M inv count inp out).exited = false ∧
    out <+: (addItem M inv count inp out).stdout := by
  by_cases hfull : count ≥ MAX_ITEMS
  · simp [addItem, hfull]
  · have hlt : count < MAX_ITEMS := lt_of_not_ge hfull
    have hnot : ¬ MAX_ITEMS ≤ count := hfull
    rcases h1 : scanf_d inp with ⟨_ | v, r1⟩
    · simp [addItem, hfull, h1, List.append_assoc]
    · rcases h2 : scanf_d (fgets 49 (clear_buffer r1)).2 with ⟨_ | q, r3⟩
      · simp +contextual [addItem, hnot, h1, h2, store, List.append_assoc]
      · by_cases hq : q < 0
        · simp +contextual [addItem, hnot, h1, h2, hq, store, List.append_assoc]
        · rcases h3 : M.scanf_f (clear_buffer r3) with ⟨_ | p, r4⟩
          · simp +contextual [addItem, hnot, h1, h2, hq, h3, store, List.append_assoc]
          · by_cases hp : M.ltZero p = true
            · simp +contextual [addItem, hnot, h1, h2, hq, h3, hp, store, List.append_assoc]
            · simp +contextual [addItem, hnot, h1, h2, hq, h3, hp, store, hlt,
                List.append_assoc]

/-- The same for a whole pass of the loop, which starts by printing the menu. -/
theorem iteration_frame (M : FloatModel) (s : State M.F) :
    (∀ i, i ≠ s.count → (iteration M s).state.inventory i = s.inventory i) ∧
    (MAX_ITEMS ≤ s.count → (iteration M s).state.inventory = s.inventory) ∧
    ((iteration M s).state.count = s.count ∨
      ((iteration M s).state.count = s.count + 1 ∧ s.count < MAX_ITEMS)) ∧
    menu <+: (iteration M s).stdout := by
  rcases h0 : scanf_d s.stdin with ⟨_ | choice, r0⟩
  · simp [iteration, h0]
  · simp only [iteration, h0]
    split_ifs
    · have h := addItem_frame M s.inventory s.count (clear_buffer r0) menu
      exact ⟨h.1, h.2.1, h.2.2.1, h.2.2.2.2⟩
    · unfold viewInventory; split_ifs <;> simp [List.append_assoc]
    · unfold searchItem
      rcases h1 : scanf_d (clear_buffer r0) with ⟨_ | sid, r1⟩
      · simp [List.append_assoc]
      · simp only []
        split <;> simp [List.append_assoc]
    · simp [totalValue, List.append_assoc]
    · simp
    · simp

/-- A pass takes the `break` exactly when the selection read is 5. -/
theorem iteration_exited (M : FloatModel) (s : State M.F) :
    (iteration M s).exited = true ↔ (scanf_d s.stdin).1 = some 5 := by
  rcases h0 : scanf_d s.stdin with ⟨_ | choice, r0⟩
  · simp [iteration, h0]
  · simp only [iteration, h0]
    split_ifs with h1 h2 h3 h4 h5
    · simp [(addItem_frame M s.inventory s.count (clear_buffer r0) menu).2.2.2.1, h1]
    · unfold viewInventory; split_ifs <;> simp [h2]
    · unfold searchItem
      rcases h : scanf_d (clear_buffer r0) with ⟨_ | sid, r1⟩
      · simp [h3]
      · simp only []
        split <;> simp [h3]
    · simp [totalValue, h4]
    · simp [h5]
    · simp [h5]

/-- After a failed `scanf("%d")`, `clear_buffer` leaves what it would leave
after the leading whitespace alone had been skipped. -/
theorem scanf_d_fail_rest (inp : List Char) (h : (scanf_d inp).1 = none) :
    clear_buffer (scanf_d inp).2 = clear_buffer (skipSpace inp) := by
  unfold scanf_d at h ⊢
  rcases hs : skipSpace inp with _ | ⟨c, cs⟩
  · simp
  · rw [hs] at h
    by_cases hc : c = '-' ∨ c = '+'
    · have hn : ¬ c = '\n' := by
        rcases hc with hc | hc <;> (rw [hc]; decide)
      rcases cs with _ | ⟨d, ds⟩
      · simp [hc, clear_buffer, hn]
      · by_cases hd : isdigit d = true
        · simp [hc, hd] at h
        · simp [hc, hd, clear_buffer, hn]
    · by_cases hd : isdigit c = true
      · simp [hc, hd] at h
      · simp [hc, hd]

/-- One pass keeps `0 ≤ count ≤ 100` and the memory outside the array. -/
theorem invariant_step (M : FloatModel) (mem : Int → Item M.F) (s : State M.F)
    (h : 0 ≤ s.count ∧ s.count ≤ 100 ∧
      ∀ i, (i < 0 ∨ 100 ≤ i) → s.inventory i = mem i) :
    0 ≤ (iteration M s).state.count ∧ (iteration M s).state.count ≤ 100 ∧
      ∀ i, (i < 0 ∨ 100 ≤ i) → (iteration M s).state.inventory i = mem i := by
  obtain ⟨h0, h1, h2⟩ := h
  obtain ⟨f1, f2, f3, -⟩ := iteration_frame M s
  have hM : MAX_ITEMS = 100 := rfl
  rw [hM] at f2 f3
  refine ⟨?_, ?_, ?_⟩
  · rcases f3 with e | ⟨e, _⟩ <;> omega
  · rcases f3 with e | ⟨e, _⟩ <;> omega
  · intro i hi
    by_cases hc : i = s.count
    · have : (100 : Int) ≤ s.count := by omega
      rw [f2 this]; exact h2 i hi
    · rw [f1 i hc]; exact h2 i hi

/-- Any number of passes keeps `0 ≤ count ≤ 100` and the memory outside the
array. -/
theorem invariant_run (M : FloatModel) (mem : Int → Item M.F) (n : Nat) :
    ∀ s : State M.F,
      (0 ≤ s.count ∧ s.count ≤ 100 ∧ ∀ i, (i < 0 ∨ 100 ≤ i) → s.inventory i = mem i) →
      (0 ≤ (run M n s).count ∧ (run M n s).count ≤ 100 ∧
        ∀ i, (i < 0 ∨ 100 ≤ i) → (run M n s).inventory i = mem i) := by
  induction n with
  | zero => intro s h; exact h
  | succ n ih =>
    intro s h
    unfold run
    split_ifs
    · exact invariant_step M mem s h
    · exact ih _ (invariant_step M mem s h)

/-! ## Capacity, the menu prompt, exit, search, listing and total -/

/-- C6: in every state reached from the initial one (`count = 0`) by any number
of passes of the loop on any input, `0 ≤ count ≤ 100`, and the memory outside
the indices `0 .. 99` of the array is as it was at the start: no record is ever
written at index 100 or beyond. -/
theorem count_within_capacity (M : FloatModel) (mem : Int → Item M.F)
    (input : List Char) (n : Nat) :
    0 ≤ (run M n (initial mem input)).count ∧
    (run M n (initial mem input)).count ≤ 100 ∧
    ∀ i, (i < 0 ∨ 100 ≤ i) → (run M n (initial mem input)).inventory i = mem i :=
  invariant_run M mem n (initial mem input)
    ⟨le_refl _, show (0 : Int) ≤ 100 by decide, fun _ _ => rfl⟩

/-- C2: with `count = 100`, option 1 prints the menu and "Inventory full." and
nothing else (no prompt), reads nothing beyond the line of the selection,
leaves `count` and every record as they were, does not leave the loop, and the
next pass starts by printing the menu. -/
theorem add_when_full (M : FloatModel) (s : State M.F) (r0 : List Char)
    (hfull : s.count = 100) (hchoice : scanf_d s.stdin = (some 1, r0)) :
    (iteration M s).stdout = menu ++ "Inventory full.\n".toList ∧
    (iteration M s).state.inventory = s.inventory ∧
    (iteration M s).state.count = s.count ∧
    (iteration M s).state.stdin = clear_buffer r0 ∧
    (iteration M s).exited = false ∧
    menu <+: (iteration M (iteration M s).state).stdout := by
  refine ⟨?_, ?_, ?_, ?_, ?_, (iteration_frame M _).2.2.2⟩ <;>
    simp [iteration, hchoice, addItem, hfull, MAX_ITEMS]

/-- The theorem `add_when_full` on a full inventory and the input `1`. -/
theorem add_when_full_witness :
    scanf_d "1\n".toList = (some 1, ['\n']) ∧
    (iteration binary32 ⟨mem0, 100, "1\n".toList⟩).stdout
      = menu ++ "Inventory full.\n".toList ∧
    (iteration binary32 ⟨mem0, 100, "1\n".toList⟩).state.count = 100 :=
  ⟨by decide,
   (add_when_full binary32 ⟨mem0, 100, "1\n".toList⟩ ['\n'] rfl (by decide)).1,
   (add_when_full binary32 ⟨mem0, 100, "1\n".toList⟩ ['\n'] rfl (by decide)).2.2.1⟩

/-- C7, as amended: when the integer read at the menu prompt fails (the input
has ended, or its first character after any whitespace, blank lines included,
does not start a numeral), the pass prints the menu and the invalid-input
message, skips that whitespace and discards the input up to and including the
next newline, leaves `count` and every record as they were, does not leave the
loop, and the next pass starts by printing the menu. -/
theorem invalid_menu_input (M : FloatModel) (s : State M.F)
    (hfail : (scanf_d s.stdin).1 = none) :
    (iteration M s).stdout = menu ++ "Invalid input. Enter a number.\n".toList ∧
    (iteration M s).state.stdin = clear_buffer (skipSpace s.stdin) ∧
    (iteration M s).state.inventory = s.inventory ∧
    (iteration M s).state.count = s.count ∧
    (iteration M s).exited = false ∧
    menu <+: (iteration M (iteration M s).state).stdout := by
  have hrest := scanf_d_fail_rest s.stdin hfail
  rcases h0 : scanf_d s.stdin with ⟨_ | choice, r0⟩
  · rw [h0] at hrest
    refine ⟨?_, ?_, ?_, ?_, ?_, (iteration_frame M _).2.2.2⟩ <;>
      simp [iteration, h0, hrest]
  · rw [h0] at hfail; simp at hfail

/-- The theorem `invalid_menu_input` on the menu line `abc`. -/
theorem invalid_menu_input_witness :
    (scanf_d "abc\n2\n".toList).1 = none ∧
    (iteration binary32 ⟨mem0, 0, "abc\n2\n".toList⟩).stdout
      = menu ++ "Invalid input. Enter a number.\n".toList ∧
    (iteration binary32 ⟨mem0, 0, "abc\n2\n".toList⟩).state.stdin = "2\n".toList :=
  ⟨by decide,
   (invalid_menu_input binary32 ⟨mem0, 0, "abc\n2\n".toList⟩ (by decide)).1,
   (invalid_menu_input binary32 ⟨mem0, 0, "abc\n2\n".toList⟩ (by decide)).2.1⟩

/-- C7, as stated, fails on a blank line: the input line at the menu prompt is
empty, so it does not begin with an integer, yet no invalid-input message is
printed and the loop is not resumed; the blank line is skipped, the selection
5 of the following line is taken, and the loop ends. -/
theorem blank_menu_line_is_skipped :
    firstLine "\n5\n".toList = [] ∧
    (scanf_d (firstLine "\n5\n".toList)).1 = none ∧
    (iteration binary32 ⟨mem0, 0, "\n5\n".toList⟩).stdout = menu ++ "Exiting...\n".toList ∧
    (iteration binary32 ⟨mem0, 0, "\n5\n".toList⟩).stdout
      ≠ menu ++ "Invalid input. Enter a number.\n".toList ∧
    (iteration binary32 ⟨mem0, 0, "\n5\n".toList⟩).state.stdin = [] ∧
    (iteration binary32 ⟨mem0, 0, "\n5\n".toList⟩).exited = true := by
  decide



/-- When `main` returns, its status is 0. -/
theorem mainFrom_status (M : FloatModel) :
    ∀ (fuel : Nat) (s : State M.F) (r : Int × List Char),
      mainFrom M fuel s = some r → r.1 = 0 := by
  intro fuel
  induction fuel with
  | zero => intro s r h; simp [mainFrom] at h
  | succ n ih =>
    intro s r h
    unfold mainFrom at h
    split_ifs at h with he
    · simp at h; rw [← h]
    · rcases hm : mainFrom M n (iteration M s).state with _ | r2
      · simp [hm] at h
      · simp [hm] at h
        rw [← h]; exact ih _ r2 hm

/-- If some pass reads the selection 5, `main` returns with enough fuel. -/
theorem mainFrom_of_five (M : FloatModel) :
    ∀ (n : Nat) (s : State M.F), (scanf_d (after M n s).stdin).1 = some 5 →
      ∃ fuel, (mainFrom M fuel s).isSome = true := by
  intro n
  induction n with
  | zero =>
    intro s h
    refine ⟨1, ?_⟩
    simp [mainFrom, (iteration_exited M s).2 h]
  | succ n ih =>
    intro s h
    by_cases he : (iteration M s).exited = true
    · exact ⟨1, by simp [mainFrom, he]⟩
    · have h2 : (scanf_d (after M n (iteration M s).state).stdin).1 = some 5 := by
        simpa [after, Function.iterate_succ_apply] using h
      obtain ⟨fuel, hf⟩ := ih _ h2
      refine ⟨fuel + 1, ?_⟩
      simp [mainFrom, he, hf]

/-- If `main` returns, some pass has read the selection 5. -/
theorem five_of_mainFrom (M : FloatModel) :
    ∀ (fuel : Nat) (s : State M.F), (mainFrom M fuel s).isSome = true →
      ∃ n, (scanf_d (after M n s).stdin).1 = some 5 := by
  intro fuel
  induction fuel with
  | zero => intro s h; simp [mainFrom] at h
  | succ k ih =>
    intro s h
    by_cases he : (iteration M s).exited = true
    · exact ⟨0, by simpa [after] using (iteration_exited M s).1 he⟩
    · have h2 : (mainFrom M k (iteration M s).state).isSome = true := by
        simpa [mainFrom, he] using h
      obtain ⟨n, hn⟩ := ih _ h2
      exact ⟨n + 1, by simpa [after, Function.iterate_succ_apply] using hn⟩

/-- At the end of the input every pass fails to read a selection and the
loop never ends. -/
theorem mainFrom_end_of_input (M : FloatModel) (inv : Int → Item M.F) (count : Int) :
    ∀ fuel : Nat, mainFrom M fuel ⟨inv, count, []⟩ = none := by
  intro fuel
  induction fuel with
  | zero => rfl
  | succ n ih =>
    have h : iteration M ⟨inv, count, []⟩
        = ⟨⟨inv, count, []⟩, menu ++ "Invalid input. Enter a number.\n".toList, false⟩ := by
      simp [iteration, scanf_d, skipSpace, clear_buffer]
    simp [mainFrom, h, ih]

/-- C8: a pass of the loop takes the `break` exactly when the selection read at
the menu prompt is 5; it then prints "Exiting..." and `main` returns 0.  After
every other event at the prompt (another selection, a failed read, the end of
the input) the loop goes on with a pass that prints the menu.  So `main`
returns exactly when some pass reads the selection 5, its status is then 0, and
at the end of the input it never returns. -/
theorem exit_only_on_five (M : FloatModel) (s : State M.F) :
    ((iteration M s).exited = true ↔ (scanf_d s.stdin).1 = some 5) ∧
    ((scanf_d s.stdin).1 = some 5 →
      (iteration M s).stdout = menu ++ "Exiting...\n".toList ∧
      ∀ fuel, mainFrom M (fuel + 1) s = some (0, menu ++ "Exiting...\n".toList)) ∧
    ((scanf_d s.stdin).1 ≠ some 5 →
      menu <+: (iteration M (iteration M s).state).stdout ∧
      ∀ fuel, mainFrom M (fuel + 1) s =
        (mainFrom M fuel (iteration M s).state).map
          (fun r => (r.1, (iteration M s).stdout ++ r.2))) ∧
    ((∃ fuel, (mainFrom M fuel s).isSome = true) ↔
      ∃ n, (scanf_d (after M n s).stdin).1 = some 5) ∧
    (∀ fuel r, mainFrom M fuel s = some r → r.1 = 0) ∧
    (∀ fuel inv count, mainFrom M fuel ⟨inv, count, []⟩ = none) := by
  refine ⟨iteration_exited M s, ?_, ?_, ?_, fun fuel r => mainFrom_status M fuel s r,
    fun fuel inv count => mainFrom_end_of_input M inv count fuel⟩
  · intro h5
    have he := (iteration_exited M s).2 h5
    have hout : (iteration M s).stdout = menu ++ "Exiting...\n".toList := by
      rcases h0 : scanf_d s.stdin with ⟨_ | choice, r0⟩
      · rw [h0] at h5; simp at h5
      · rw [h0] at h5
        simp at h5
        simp [iteration, h0, h5]
    exact ⟨hout, fun fuel => by simp [mainFrom, he, hout]⟩
  · intro h5
    have he : ¬ (iteration M s).exited = true := fun h => h5 ((iteration_exited M s).1 h)
    exact ⟨(iteration_frame M _).2.2.2, fun fuel => by simp [mainFrom, he]⟩
  · constructor
    · rintro ⟨fuel, hf⟩; exact five_of_mainFrom M fuel s hf
    · rintro ⟨n, hn⟩; exact mainFrom_of_five M n s hn

/-- When the search loop breaks at `j`, the record at `j` has the id and no
earlier record of the range has it. -/
theorem searchLoop_some {F : Type} (inv : Int → Item F) (sid : Int) :
    ∀ (n : Nat) (i j : Int), searchLoop inv sid n i = some j →
      i ≤ j ∧ j < i + n ∧ (inv j).id = sid ∧ ∀ k, i ≤ k → k < j → (inv k).id ≠ sid := by
  intro n
  induction n with
  | zero => intro i j h; simp [searchLoop] at h
  | succ n ih =>
    intro i j h
    unfold searchLoop at h
    split_ifs at h with hi
    · simp at h
      subst h
      exact ⟨le_refl _, by omega, hi, fun k h1 h2 => by omega⟩
    · obtain ⟨a, b, c, d⟩ := ih (i + 1) j h
      refine ⟨by omega, by push_cast; omega, c, ?_⟩
      intro k h1 h2
      by_cases hk : k = i
      · rw [hk]; exact hi
      · exact d k (by omega) h2

/-- When the search loop runs to its end, no record of the range has the id. -/
theorem searchLoop_none {F : Type} (inv : Int → Item F) (sid : Int) :
    ∀ (n : Nat) (i : Int), searchLoop inv sid n i = none →
      ∀ k, i ≤ k → k < i + n → (inv k).id ≠ sid := by
  intro n
  induction n with
  | zero => intro i h k h1 h2; simp at h2; omega
  | succ n ih =>
    intro i h k h1 h2
    unfold searchLoop at h
    split_ifs at h with hi
    by_cases hk : k = i
    · rw [hk]; exact hi
    · exact ih (i + 1) h k (by omega) (by push_cast at h2; omega)

/-- The "Found" text is never the not-found message. -/
theorem foundText_ne (M : FloatModel) (it : Item M.F) :
    foundText M it ≠ "Item not found.\n".toList := by
  intro h
  have h1 : "\nFound: ".toList = '\n' :: "Found: ".toList := rfl
  have h2 : "Item not found.\n".toList = 'I' :: "tem not found.\n".toList := rfl
  rw [foundText, h1, h2] at h
  simp at h

/-- C3: option 3 with a search id that reads as an integer prints, for the
record at the smallest index below `count` whose id is the search id, the
"Found" line with that record's name, quantity and price (so of several records
with the id only the earliest is reported), and it prints "Item not found."
exactly when none of the first `count` records has the id.  The inventory and
`count` are as before and the loop goes on. -/
theorem search_reports_first (M : FloatModel) (s : State M.F) (r0 r1 : List Char)
    (search_id : Int)
    (hchoice : scanf_d s.stdin = (some 3, r0))
    (hid : scanf_d (clear_buffer r0) = (some search_id, r1)) :
    (∀ i, 0 ≤ i → i < s.count → (s.inventory i).id = search_id →
      (∀ j, 0 ≤ j → j < i → (s.inventory j).id ≠ search_id) →
      (iteration M s).stdout
        = menu ++ "Enter Item ID to search: ".toList ++ foundText M (s.inventory i)) ∧
    ((iteration M s).stdout
        = menu ++ "Enter Item ID to search: ".toList ++ "Item not found.\n".toList ↔
      ∀ i, 0 ≤ i → i < s.count → (s.inventory i).id ≠ search_id) ∧
    (iteration M s).state.inventory = s.inventory ∧
    (iteration M s).state.count = s.count ∧
    (iteration M s).state.stdin = clear_buffer r1 ∧
    (iteration M s).exited = false := by
  rcases hl : searchLoop s.inventory search_id s.count.toNat 0 with _ | j
  · have hn := searchLoop_none s.inventory search_id _ _ hl
    have hall : ∀ i, 0 ≤ i → i < s.count → (s.inventory i).id ≠ search_id :=
      fun i h1 h2 => hn i h1 (by omega)
    refine ⟨?_, ?_, ?_, ?_, ?_, ?_⟩
    · intro i h1 h2 h3; exact absurd h3 (hall i h1 h2)
    · simp [iteration, hchoice, searchItem, hid, hl]
      exact hall
    all_goals simp [iteration, hchoice, searchItem, hid, hl]
  · obtain ⟨a, b, c, d⟩ := searchLoop_some s.inventory search_id _ _ _ hl
    have hj : j < s.count := by omega
    refine ⟨?_, ?_, ?_, ?_, ?_, ?_⟩
    · intro i h1 h2 h3 h4
      have hij : i = j := by
        rcases lt_trichotomy i j with h | h | h
        · exact absurd h3 (d i h1 h)
        · exact h
        · exact absurd c (h4 j a h)
      simp [iteration, hchoice, searchItem, hid, hl, hij]
    · simp [iteration, hchoice, searchItem, hid, hl]
      constructor
      · intro h; exact absurd h (foundText_ne M _)
      · intro h; exact absurd c (h j a hj)
    all_goals simp [iteration, hchoice, searchItem, hid, hl]

/-- The theorem `search_reports_first` on three records of which the second
and the third share the id searched for. -/
theorem search_reports_first_witness :
    scanf_d "3\n7\n".toList = (some 3, "\n7\n".toList) ∧
    scanf_d (clear_buffer "\n7\n".toList) = (some 7, ['\n']) ∧
    (iteration binary32
        ⟨fun i => if i = 0 then ⟨4, "nut".toList, 1, F32.zero⟩
                  else ⟨7, (if i = 1 then "bolt" else "screw").toList, i, F32.zero⟩,
         3, "3\n7\n".toList⟩).stdout
      = menu ++ "Enter Item ID to search: ".toList ++
          "\nFound: bolt (Qty: 1, Price: $0.00)\n".toList :=
  ⟨by decide, by decide,
   (search_reports_first binary32
      ⟨fun i => if i = 0 then ⟨4, "nut".toList, 1, F32.zero⟩
                else ⟨7, (if i = 1 then "bolt" else "screw").toList, i, F32.zero⟩,
       3, "3\n7\n".toList⟩ "\n7\n".toList ['\n'] 7 (by decide) (by decide)).1 1
      (by decide) (by decide) (by decide)
      (fun j h0 h1 => by
        have hj : j = 0 := by omega
        subst hj; decide)⟩



/-- The listing loop prints the rows of the indices `i, i + 1, ...` in order. -/
theorem viewLoop_eq (M : FloatModel) (inv : Int → Item M.F) :
    ∀ (n : Nat) (i : Int), viewLoop M inv n i
      = ((List.range n).map (fun k : Nat => viewRow M (inv (i + k)))).flatten := by
  intro n
  induction n with
  | zero => intro i; rfl
  | succ n ih =>
    intro i
    rw [viewLoop, ih (i + 1), List.range_succ_eq_map]
    simp only [List.map_cons, List.map_map, List.flatten_cons, Nat.cast_zero, add_zero]
    congr 2
    apply List.map_congr_left
    intro k _
    simp only [Function.comp, Nat.succ_eq_add_one, Nat.cast_add, Nat.cast_one]
    congr 2
    ring

/-- The summation loop is a left fold over the indices `i, i + 1, ...`. -/
theorem totalLoop_eq (M : FloatModel) (inv : Int → Item M.F) :
    ∀ (n : Nat) (i : Int) (acc : M.F), totalLoop M inv n i acc
      = (List.range n).foldl
          (fun a (k : Nat) => M.add a (M.mul (M.ofInt (inv (i + k)).quantity) (inv (i + k)).price))
          acc := by
  intro n
  induction n with
  | zero => intro i acc; rfl
  | succ n ih =>
    intro i acc
    rw [totalLoop, ih (i + 1), List.range_succ_eq_map]
    simp only [List.foldl_cons, List.foldl_map, Nat.cast_zero, add_zero]
    congr 1
    funext a k
    simp only [Nat.succ_eq_add_one, Nat.cast_add, Nat.cast_one]
    have : i + 1 + (k : Int) = i + ((k : Int) + 1) := by ring
    rw [this]

/-- C9: option 2 prints "Inventory is empty." exactly when `count = 0`;
otherwise it prints the header row and then one row per record, `count` rows
in all, the row of index `i` made of the id, the quantity, the price in the
`%.2f` format and the name of the record of index `i`, in increasing order of
index.  The inventory and `count` are as before.  For the single record
(1, Widget, 10, 2.50) the one row reads 1, 10, 2.50, Widget, also when the
record was entered through option 1. -/
theorem view_lists_records (M : FloatModel) (s : State M.F) (r0 : List Char)
    (hchoice : scanf_d s.stdin = (some 2, r0)) (hcount : 0 ≤ s.count) :
    ((iteration M s).stdout = menu ++ "Inventory is empty.\n".toList ↔ s.count = 0) ∧
    (s.count ≠ 0 → (iteration M s).stdout
      = menu ++ "\nID\tQty\tPrice\tName\n".toList ++
        ((List.range s.count.toNat).map (fun i : Nat => viewRow M (s.inventory i))).flatten) ∧
    (((List.range s.count.toNat).map (fun i : Nat => viewRow M (s.inventory i))).length : Int)
      = s.count ∧
    (∀ it : Item M.F, viewRow M it
      = fmt_d it.id ++ "\t".toList ++ fmt_d it.quantity ++ "\t".toList ++ M.fmt2 it.price ++
          "\t".toList ++ it.name ++ "\n".toList) ∧
    (iteration M s).state.inventory = s.inventory ∧
    (iteration M s).state.count = s.count ∧
    (iteration M s).state.stdin = clear_buffer r0 ∧
    (iteration M s).exited = false ∧
    (∀ inp r, scanf_d inp = (some 2, r) →
      (iteration binary32 ⟨widgetInventory, 1, inp⟩).stdout
        = menu ++ "\nID\tQty\tPrice\tName\n".toList ++ "1\t10\t2.50\tWidget\n".toList) ∧
    (iteration binary32
        (iteration binary32 (initial mem0 "1\n1\nWidget\n10\n2.50\n2\n".toList)).state).stdout
      = menu ++ "\nID\tQty\tPrice\tName\n".toList ++ "1\t10\t2.50\tWidget\n".toList := by
  have hhead : "\nID\tQty\tPrice\tName\n".toList = '\n' :: "ID\tQty\tPrice\tName\n".toList := rfl
  have hempty : "Inventory is empty.\n".toList = 'I' :: "nventory is empty.\n".toList := rfl
  refine ⟨?_, ?_, ?_, ?_, ?_, ?_, ?_, ?_, ?_, ?_⟩
  · by_cases hc : s.count = 0
    · simp [iteration, hchoice, viewInventory, hc]
    · simp only [iteration, hchoice, viewInventory, hc, if_false, iff_false]
      rw [List.append_assoc, hhead, hempty]
      simp
  · intro hc
    simp only [iteration, hchoice, viewInventory, hc, if_false, viewLoop_eq, sub_zero, zero_add]
    simp
  · simp only [List.length_map, List.length_range]
    omega
  · intro it
    simp [viewRow]
  · simp only [iteration, hchoice, viewInventory]; simp; split_ifs <;> rfl
  · simp only [iteration, hchoice, viewInventory]; simp; split_ifs <;> rfl
  · simp only [iteration, hchoice, viewInventory]; simp; split_ifs <;> rfl
  · simp only [iteration, hchoice, viewInventory]; simp; split_ifs <;> rfl
  · intro inp r h
    have hrow : viewLoop binary32 widgetInventory 1 0 = "1\t10\t2.50\tWidget\n".toList := by
      decide
    simp only [iteration, h, viewInventory]
    simp [hrow]
  · decide

/-- The theorem `view_lists_records` on an inventory of two records. -/
theorem view_lists_records_witness :
    scanf_d "2\n".toList = (some 2, ['\n']) ∧
    ((iteration binary32 ⟨largeInventory, 2, "2\n".toList⟩).stdout
      = menu ++ "\nID\tQty\tPrice\tName\n".toList ++
          ((List.range 2).map (fun i : Nat => viewRow binary32 (largeInventory i))).flatten) :=
  ⟨by decide,
   (view_lists_records binary32 ⟨largeInventory, 2, "2\n".toList⟩ ['\n']
      (by decide) (by decide)).2.1 (by decide)⟩

/-- C4, as amended: option 4 prints the total in the `%.2f` format, where the
total starts from 0 and, record by record in increasing order of index over
the first `count` records, has the product of the quantity (converted to
`float`) and the price added to it, each product and each sum being a `float`
operation.  For an empty inventory the total is 0, printed as 0.00 in single
precision.  The inventory and `count` are as before. -/
theorem total_is_running_sum (M : FloatModel) (s : State M.F) (r0 : List Char)
    (hchoice : scanf_d s.stdin = (some 4, r0)) :
    (iteration M s).stdout
      = menu ++ "\nTotal Inventory Value: $".toList ++
          M.fmt2 (total_value M s.inventory s.count) ++ "\n".toList ∧
    total_value M s.inventory s.count
      = (List.range s.count.toNat).foldl
          (fun acc (i : Nat) =>
            M.add acc (M.mul (M.ofInt (s.inventory i).quantity) (s.inventory i).price))
          M.zero ∧
    (s.count = 0 → total_value M s.inventory s.count = M.zero) ∧
    binary32.fmt2 binary32.zero = "0.00".toList ∧
    (iteration M s).state.inventory = s.inventory ∧
    (iteration M s).state.count = s.count ∧
    (iteration M s).state.stdin = clear_buffer r0 ∧
    (iteration M s).exited = false := by
  refine ⟨?_, ?_, ?_, by decide, ?_, ?_, ?_, ?_⟩
  · simp [iteration, hchoice, totalValue]
  · simp [total_value, totalLoop_eq]
  · intro hc
    simp [total_value, hc, totalLoop]
  all_goals simp [iteration, hchoice, totalValue]

/-- The theorem `total_is_running_sum` on the inventory of the one Widget. -/
theorem total_is_running_sum_witness :
    scanf_d "4\n".toList = (some 4, ['\n']) ∧
    (iteration binary32 ⟨widgetInventory, 1, "4\n".toList⟩).stdout
      = menu ++ "\nTotal Inventory Value: $".toList ++
          binary32.fmt2 (total_value binary32 widgetInventory 1) ++ "\n".toList :=
  ⟨by decide,
   (total_is_running_sum binary32 ⟨widgetInventory, 1, "4\n".toList⟩ ['\n'] (by decide)).1⟩

set_option maxRecDepth 4000

/-- C4, as stated, fails in single precision: for two records of quantity 1
with the prices 16777216 and 1 the exact sum of quantity times price is
16777217, but the total computed is 16777216 and is printed as 16777216.00. -/
theorem total_not_exact :
    exactTotal largeInventory 2 = 16777217 ∧
    (total_value binary32 largeInventory 2).toRat = 16777216 ∧
    (total_value binary32 largeInventory 2).toRat ≠ exactTotal largeInventory 2 ∧
    (iteration binary32 ⟨largeInventory, 2, "4\n".toList⟩).stdout
      = menu ++ "\nTotal Inventory Value: $16777216.00\n".toList := by
  have h1 : exactTotal largeInventory 2 = 16777217 := by
    simp [exactTotal, List.range_succ, largeInventory, F32.toRat]
    norm_num
  have h2 : total_value binary32 largeInventory 2 = F32.fin false 8388608 1 := by decide
  have h3 : (total_value binary32 largeInventory 2).toRat = 16777216 := by
    rw [h2]; norm_num [F32.toRat]
  refine ⟨h1, h3, ?_, by decide⟩
  rw [h1, h3]; norm_num



/-! ## Reading a name, and what a pass prints -/

/-- What `fgets` and the cut at the newline store is the first line of the
input without its newline, truncated to the size of the read, when that text
holds no NUL byte. -/
theorem strip_fgets (k : Nat) :
    ∀ inp : List Char, (∀ c ∈ (firstLine inp).take k, c ≠ '\x00') →
      stripNewline (cString (fgets k inp).1) = (firstLine inp).take k := by
  induction k with
  | zero => intro inp _; simp [fgets, cString, stripNewline]
  | succ k ih =>
    intro inp h
    rcases inp with _ | ⟨c, cs⟩
    · simp [fgets, cString, stripNewline, firstLine]
    · by_cases hc : c = '\n'
      · subst hc
        simp [fgets, cString, stripNewline, firstLine]
      · have hb : (c != '\n') = true := by simpa using hc
        have hfl : firstLine (c :: cs) = c :: firstLine cs := by
          rw [firstLine, List.takeWhile_cons]
          simp only [hb, if_true]
          rfl
        rw [hfl] at h ⊢
        have hz : (c != '\x00') = true := by simpa using h c (by simp)
        have hrest : ∀ d ∈ (firstLine cs).take k, d ≠ '\x00' :=
          fun d hd => h d (by simp [hd])
        have hi := ih cs hrest
        rw [fgets]
        simp only [hc, if_false]
        rw [cString, List.takeWhile_cons]
        simp only [hz, if_true]
        rw [stripNewline, List.takeWhile_cons]
        simp only [hb, if_true, List.take_succ_cons]
        congr 1

/-- The listing loop reads only the records of its range. -/
theorem viewLoop_congr (M : FloatModel) (inv inv' : Int → Item M.F) :
    ∀ (n : Nat) (i : Int), (∀ k, i ≤ k → k < i + n → inv' k = inv k) →
      viewLoop M inv' n i = viewLoop M inv n i := by
  intro n
  induction n with
  | zero => intro i _; rfl
  | succ n ih =>
    intro i h
    rw [viewLoop, viewLoop, h i (le_refl _) (by push_cast; omega),
      ih (i + 1) (fun k h1 h2 => h k (by omega) (by push_cast; omega))]

/-- The search loop reads only the records of its range. -/
theorem searchLoop_congr {F : Type} (inv inv' : Int → Item F) (sid : Int) :
    ∀ (n : Nat) (i : Int), (∀ k, i ≤ k → k < i + n → inv' k = inv k) →
      searchLoop inv' sid n i = searchLoop inv sid n i := by
  intro n
  induction n with
  | zero => intro i _; rfl
  | succ n ih =>
    intro i h
    rw [searchLoop, searchLoop, h i (le_refl _) (by push_cast; omega),
      ih (i + 1) (fun k h1 h2 => h k (by omega) (by push_cast; omega))]

/-- The summation loop reads only the records of its range. -/
theorem totalLoop_congr (M : FloatModel) (inv inv' : Int → Item M.F) :
    ∀ (n : Nat) (i : Int) (acc : M.F), (∀ k, i ≤ k → k < i + n → inv' k = inv k) →
      totalLoop M inv' n i acc = totalLoop M inv n i acc := by
  intro n
  induction n with
  | zero => intro i acc _; rfl
  | succ n ih =>
    intro i acc h
    rw [totalLoop, totalLoop, h i (le_refl _) (by push_cast; omega),
      ih (i + 1) _ (fun k h1 h2 => h k (by omega) (by push_cast; omega))]

/-- What the add branch prints does not depend on the records. -/
theorem addItem_stdout_congr (M : FloatModel) (inv inv' : Int → Item M.F) (count : Int)
    (inp out : List Char) :
    (addItem M inv' count inp out).stdout = (addItem M inv count inp out).stdout := by
  by_cases hfull : count ≥ MAX_ITEMS
  · simp [addItem, hfull]
  · rcases h1 : scanf_d inp with ⟨_ | v, r1⟩
    · simp [addItem, hfull, h1]
    · rcases h2 : scanf_d (fgets 49 (clear_buffer r1)).2 with ⟨_ | q, r3⟩
      · simp [addItem, hfull, h1, h2]
      · by_cases hq : q < 0
        · simp [addItem, hfull, h1, h2, hq]
        · rcases h3 : M.scanf_f (clear_buffer r3) with ⟨_ | p, r4⟩
          · simp [addItem, hfull, h1, h2, hq, h3]
          · by_cases hp : M.ltZero p = true
            · simp [addItem, hfull, h1, h2, hq, h3, hp]
            · simp [addItem, hfull, h1, h2, hq, h3, hp]

/-- What a pass prints depends on the records below `count` only. -/
theorem stdout_congr (M : FloatModel) (inv inv' : Int → Item M.F) (count : Int)
    (inp : List Char) (h : ∀ k, 0 ≤ k → k < count → inv' k = inv k) :
    (iteration M ⟨inv', count, inp⟩).stdout = (iteration M ⟨inv, count, inp⟩).stdout := by
  have hk : ∀ k : Int, 0 ≤ k → k < 0 + (count.toNat : Int) → inv' k = inv k :=
    fun k h1 h2 => h k h1 (by omega)
  rcases h0 : scanf_d inp with ⟨_ | choice, r0⟩
  · simp [iteration, h0]
  · simp only [iteration, h0]
    split_ifs
    · exact addItem_stdout_congr M inv inv' count _ _
    · simp only [viewInventory, sub_zero, viewLoop_congr M inv inv' _ 0 hk]
      split_ifs <;> rfl
    · simp only [searchItem, sub_zero, searchLoop_congr inv inv' _ _ 0 hk]
      rcases h1 : scanf_d (clear_buffer r0) with ⟨_ | sid, r1⟩
      · rfl
      · simp only []
        rcases hl : searchLoop inv sid count.toNat 0 with _ | j
        · rfl
        · obtain ⟨a, b, -, -⟩ := searchLoop_some inv sid _ _ _ hl
          simp only [h j a (by omega)]
    · simp only [totalValue, total_value, sub_zero, totalLoop_congr M inv inv' _ 0 _ hk]
    · rfl
    · rfl



/-! ## Numerals typed at a prompt -/

/-- The character printed for a decimal digit is that digit. -/
theorem digit_char (n : Nat) (h : n < 10) :
    isdigit (Char.ofNat (48 + n)) = true ∧ (Char.ofNat (48 + n)).toNat - 48 = n ∧
    isspace (Char.ofNat (48 + n)) = false ∧ Char.ofNat (48 + n) ≠ '-' ∧
    Char.ofNat (48 + n) ≠ '+' := by
  interval_cases n <;> decide

/-- The digits printed for `n` are read back as `n`. -/
theorem readDigits_natDigits :
    ∀ (fuel n : Nat) (acc : List Char), n < fuel →
      readDigits 0 (natDigits fuel n acc) = readDigits n acc := by
  intro fuel
  induction fuel with
  | zero => intro n acc h; omega
  | succ f ih =>
    intro n acc h
    by_cases hn : n < 10
    · obtain ⟨h1, h2, -⟩ := digit_char n hn
      simp [natDigits, hn, readDigits, h1, h2]
    · have hlt : n / 10 < f := by omega
      have hm : n % 10 < 10 := Nat.mod_lt _ (by decide)
      obtain ⟨h1, h2, -⟩ := digit_char (n % 10) hm
      rw [natDigits, if_neg hn, ih _ _ hlt, readDigits, if_pos h1, h2]
      congr 1
      omega

/-- The digits printed for `n` start with a digit. -/
theorem natDigits_head :
    ∀ (fuel n : Nat) (acc : List Char), n < fuel →
      ∃ d ds, natDigits fuel n acc = d :: ds ∧ isdigit d = true ∧ isspace d = false ∧
        d ≠ '-' ∧ d ≠ '+' := by
  intro fuel
  induction fuel with
  | zero => intro n acc h; omega
  | succ f ih =>
    intro n acc h
    by_cases hn : n < 10
    · obtain ⟨h1, -, h3, h4, h5⟩ := digit_char n hn
      exact ⟨_, acc, by simp [natDigits, hn], h1, h3, h4, h5⟩
    · rw [natDigits, if_neg hn]
      exact ih _ _ (by omega)

/-- Text after the digits printed for `n` is text after which they were
printed. -/
theorem natDigits_append :
    ∀ (fuel n : Nat) (acc t : List Char),
      natDigits fuel n acc ++ t = natDigits fuel n (acc ++ t) := by
  intro fuel
  induction fuel with
  | zero => intro n acc t; rfl
  | succ f ih =>
    intro n acc t
    by_cases hn : n < 10
    · simp [natDigits, hn]
    · rw [natDigits, if_neg hn, natDigits, if_neg hn, ih]
      rfl

/-- An `int` typed in decimal and followed by a newline is read by
`scanf("%d")` as itself, up to the newline. -/
theorem scanf_d_fmt_d (v : Int) (rest : List Char)
    (hlo : -2147483648 ≤ v) (hhi : v < 2147483648) :
    scanf_d (fmt_d v ++ '\n' :: rest) = (some v, '\n' :: rest) := by
  have hrd : readDigits v.natAbs ('\n' :: rest) = (v.natAbs, '\n' :: rest) := by
    simp [readDigits, isdigit]
  obtain ⟨d, ds, hd, h1, h2, h3, h4⟩ :=
    natDigits_head (v.natAbs + 1) v.natAbs ([] ++ '\n' :: rest) (by omega)
  have hread := readDigits_natDigits (v.natAbs + 1) v.natAbs ([] ++ '\n' :: rest) (by omega)
  rw [hd] at hread
  simp only [List.nil_append] at hread hd
  by_cases hv : v < 0
  · have hw : wrap32 (-|v|) = v := by
      unfold wrap32; rw [abs_of_neg hv]; omega
    simp only [fmt_d, hv, if_true, List.cons_append, natDigits_append, List.nil_append, hd,
      scanf_d]
    have hs : skipSpace ('-' :: d :: ds) = '-' :: d :: ds := by
      simp [skipSpace, isspace]
    simp [hs, h1, hread, hrd, hw]
  · have hw : wrap32 |v| = v := by
      unfold wrap32; rw [abs_of_nonneg (not_lt.1 hv)]; omega
    simp only [fmt_d, hv, if_false, natDigits_append, List.nil_append, hd, scanf_d]
    have hs : skipSpace (d :: ds) = d :: ds := by
      simp [skipSpace, h2]
    simp [hs, h1, h3, h4, hread, hrd, hw]

/-! ## The add branch -/

/-- C1: with `count < 100`, when option 1 reads an id, then (after the name) a
quantity that is not negative and a price that is not below zero, the pass
prints "Item added.", `count` grows by exactly one, the record at the old
`count` holds the id, the name, the quantity and the price that were read, and
every other record is as before.  The name is what `fgets` and the cut at the
newline yield: the name line without its newline, truncated to its first 49
characters.  An `int` typed in decimal on a line is read as itself. -/
theorem add_succeeds (M : FloatModel) (s : State M.F) (r0 r1 r3 r4 : List Char)
    (v q : Int) (p : M.F)
    (hroom : s.count < 100)
    (hchoice : scanf_d s.stdin = (some 1, r0))
    (hid : scanf_d (clear_buffer r0) = (some v, r1))
    (hqty : scanf_d (fgets 49 (clear_buffer r1)).2 = (some q, r3)) (hq : 0 ≤ q)
    (hprice : M.scanf_f (clear_buffer r3) = (some p, r4)) (hp : M.ltZero p = false) :
    (iteration M s).state.count = s.count + 1 ∧
    (iteration M s).state.inventory s.count
      = ⟨v, readName (s.inventory s.count).name (clear_buffer r1), q, p⟩ ∧
    ((∀ c ∈ (firstLine (clear_buffer r1)).take 49, c ≠ '\x00') →
      ((iteration M s).state.inventory s.count).name
        = (firstLine (clear_buffer r1)).take 49) ∧
    (∀ i, i ≠ s.count → (iteration M s).state.inventory i = s.inventory i) ∧
    (iteration M s).state.stdin = clear_buffer r4 ∧
    (iteration M s).stdout = menu ++
      "Enter Item ID (number): Enter Item Name: Enter Quantity: Enter Price per unit: Item added.\n".toList ∧
    (iteration M s).exited = false ∧
    (∀ (x : Int) (rest : List Char), -2147483648 ≤ x → x < 2147483648 →
      scanf_d (fmt_d x ++ '\n' :: rest) = (some x, '\n' :: rest)) := by
  have hnot : ¬ s.count ≥ MAX_ITEMS := by
    have : MAX_ITEMS = 100 := rfl
    omega
  have hq' : ¬ q < 0 := by omega
  have hrec : (iteration M s).state.inventory s.count
      = ⟨v, readName (s.inventory s.count).name (clear_buffer r1), q, p⟩ := by
    simp [iteration, hchoice, addItem, hnot, hid, hqty, hq', hprice, hp, store]
  refine ⟨?_, hrec, ?_, ?_, ?_, ?_, ?_, fun x rest => scanf_d_fmt_d x rest⟩
  · simp [iteration, hchoice, addItem, hnot, hid, hqty, hq', hprice, hp]
  · intro hnul
    have hne : clear_buffer r1 ≠ [] := by
      intro he
      rw [he] at hqty
      simp [fgets, scanf_d, skipSpace] at hqty
    rw [hrec]
    simp only [readName, hne, if_false]
    exact strip_fgets 49 _ hnul
  · intro i hi
    simp [iteration, hchoice, addItem, hnot, hid, hqty, hq', hprice, hp, store, hi]
  · simp [iteration, hchoice, addItem, hnot, hid, hqty, hq', hprice, hp]
  · simp [iteration, hchoice, addItem, hnot, hid, hqty, hq', hprice, hp]
  · simp [iteration, hchoice, addItem, hnot, hid, hqty, hq', hprice, hp]

/-- The theorem `add_succeeds` on the entry of the Widget record. -/
theorem add_succeeds_witness :
    (iteration binary32 (initial mem0 "1\n1\nWidget\n10\n2.50\n".toList)).state.count = 0 + 1 ∧
    ((iteration binary32 (initial mem0 "1\n1\nWidget\n10\n2.50\n".toList)).state.inventory 0).name
      = "Widget".toList ∧
    ((iteration binary32 (initial mem0 "1\n1\nWidget\n10\n2.50\n".toList)).state.inventory 0).price
      = F32.fin false 10485760 (-22) :=
  have h := add_succeeds binary32 (initial mem0 "1\n1\nWidget\n10\n2.50\n".toList)
    "\n1\nWidget\n10\n2.50\n".toList "\nWidget\n10\n2.50\n".toList "\n2.50\n".toList ['\n']
    1 10 (F32.fin false 10485760 (-22))
    (by decide) (by decide) (by decide) (by decide) (by decide) (by decide) (by decide)
  ⟨h.1, h.2.2.1 (by decide),
    congrArg Item.price h.2.1⟩

/-- C5: when option 1 fails to read the id, or fails to read the quantity or
reads a negative one, or fails to read the price or reads one below zero, the
pass prints the matching error message after the prompts issued so far, keeps
`count` and every record of index other than `count` (so the first `count`
records), and a listing, search or total made afterwards prints what it would
have printed before the attempt.  With `count` at 100 or more the attempt ends
the same way with "Inventory full.". -/
theorem add_abort_is_atomic (M : FloatModel) (s : State M.F) (r0 : List Char)
    (hchoice : scanf_d s.stdin = (some 1, r0)) :
    (s.count < 100 → (scanf_d (clear_buffer r0)).1 = none →
      abortedWith M s "Enter Item ID (number): Invalid ID.\n") ∧
    (∀ v r1, s.count < 100 → scanf_d (clear_buffer r0) = (some v, r1) →
      ((scanf_d (fgets 49 (clear_buffer r1)).2).1 = none ∨
        ∃ q, (scanf_d (fgets 49 (clear_buffer r1)).2).1 = some q ∧ q < 0) →
      abortedWith M s
        "Enter Item ID (number): Enter Item Name: Enter Quantity: Invalid quantity.\n") ∧
    (∀ v r1 q r3, s.count < 100 → scanf_d (clear_buffer r0) = (some v, r1) →
      scanf_d (fgets 49 (clear_buffer r1)).2 = (some q, r3) → 0 ≤ q →
      ((M.scanf_f (clear_buffer r3)).1 = none ∨
        ∃ p, (M.scanf_f (clear_buffer r3)).1 = some p ∧ M.ltZero p = true) →
      abortedWith M s
        "Enter Item ID (number): Enter Item Name: Enter Quantity: Enter Price per unit: Invalid price.\n") ∧
    (100 ≤ s.count → abortedWith M s "Inventory full.\n") := by
  have hframe := iteration_frame M s
  have hvis : ∀ inp, (iteration M ⟨(iteration M s).state.inventory, s.count, inp⟩).stdout
      = (iteration M ⟨s.inventory, s.count, inp⟩).stdout :=
    fun inp => stdout_congr M _ _ _ _ (fun k _ h2 => hframe.1 k (by omega))
  have hM : MAX_ITEMS = 100 := rfl
  refine ⟨?_, ?_, ?_, ?_⟩
  · intro hroom hfail
    have hnot : ¬ s.count ≥ MAX_ITEMS := by omega
    rcases h1 : scanf_d (clear_buffer r0) with ⟨_ | v, r1⟩
    · refine ⟨?_, ?_, hframe.1, hvis, ?_⟩ <;>
        simp [iteration, hchoice, addItem, hnot, h1]
    · rw [h1] at hfail; simp at hfail
  · intro v r1 hroom h1 hbad
    have hnot : ¬ s.count ≥ MAX_ITEMS := by omega
    rcases h2 : scanf_d (fgets 49 (clear_buffer r1)).2 with ⟨_ | q, r3⟩
    · refine ⟨?_, ?_, hframe.1, hvis, ?_⟩ <;>
        simp [iteration, hchoice, addItem, hnot, h1, h2]
    · have hq : q < 0 := by
        rcases hbad with h | ⟨q', h, hlt⟩
        · rw [h2] at h; simp at h
        · rw [h2] at h; simp at h; rw [h]; exact hlt
      refine ⟨?_, ?_, hframe.1, hvis, ?_⟩ <;>
        simp [iteration, hchoice, addItem, hnot, h1, h2, hq]
  · intro v r1 q r3 hroom h1 h2 hq hbad
    have hnot : ¬ s.count ≥ MAX_ITEMS := by omega
    have hq' : ¬ q < 0 := by omega
    rcases h3 : M.scanf_f (clear_buffer r3) with ⟨_ | p, r4⟩
    · refine ⟨?_, ?_, hframe.1, hvis, ?_⟩ <;>
        simp [iteration, hchoice, addItem, hnot, h1, h2, hq', h3]
    · have hp : M.ltZero p = true := by
        rcases hbad with h | ⟨p', h, hlt⟩
        · rw [h3] at h; simp at h
        · rw [h3] at h; simp at h; rw [h]; exact hlt
      refine ⟨?_, ?_, hframe.1, hvis, ?_⟩ <;>
        simp [iteration, hchoice, addItem, hnot, h1, h2, hq', h3, hp]
  · intro hfull
    have hge : s.count ≥ MAX_ITEMS := by omega
    refine ⟨?_, ?_, hframe.1, hvis, ?_⟩ <;>
      simp [iteration, hchoice, addItem, hge]

/-- The theorem `add_abort_is_atomic` on an add attempt with the quantity -5. -/
theorem add_abort_is_atomic_witness :
    scanf_d "1\n1\nWidget\n-5\n".toList = (some 1, "\n1\nWidget\n-5\n".toList) ∧
    (scanf_d (fgets 49 (clear_buffer "\nWidget\n-5\n".toList)).2).1 = some (-5) ∧
    abortedWith binary32 ⟨widgetInventory, 1, "1\n1\nWidget\n-5\n".toList⟩
      "Enter Item ID (number): Enter Item Name: Enter Quantity: Invalid quantity.\n" :=
  ⟨by decide, by decide,
   (add_abort_is_atomic binary32 ⟨widgetInventory, 1, "1\n1\nWidget\n-5\n".toList⟩
      "\n1\nWidget\n-5\n".toList (by decide)).2.1 1 "\nWidget\n-5\n".toList
      (by decide) (by decide) (Or.inr ⟨-5, by decide, by decide⟩)⟩

/-- C10 fails on a name line of 50 characters or more.  On the input
`longNameInput` (selection 1, id 7, a name line of 49 letters followed by the
digit 5, then the lines 3 and 2.5) the name stored is the first 49 characters,
but the rest of the name line stays in the input: the quantity 5 is read from
it, the price 3 is read from the line typed as quantity, and the line typed as
price is left for the next menu selection. -/
theorem long_name_line_left_in_input :
    (fgets 49 (List.replicate 49 'a' ++ "5\n3\n2.5\n".toList)).2 = "5\n3\n2.5\n".toList ∧
    (iteration binary32 (initial mem0 longNameInput)).state.count = 1 ∧
    ((iteration binary32 (initial mem0 longNameInput)).state.inventory 0).id = 7 ∧
    ((iteration binary32 (initial mem0 longNameInput)).state.inventory 0).name
      = List.replicate 49 'a' ∧
    ((iteration binary32 (initial mem0 longNameInput)).state.inventory 0).quantity = 5 ∧
    ((iteration binary32 (initial mem0 longNameInput)).state.inventory 0).price
      = F32.ofInt 3 ∧
    (iteration binary32 (initial mem0 longNameInput)).state.stdin = "2.5\n".toList ∧
    (iteration binary32 (initial mem0 longNameInput)).stdout = menu ++
      "Enter Item ID (number): Enter Item Name: Enter Quantity: Enter Price per unit: Item added.\n".toList := by
  decide


end Inventory
